import Mathlib

/-
Verification of the autotalk real-time audio capture / transcription pipeline.

The Rust sources (src/audio.rs, src/transcriber.rs) are shallowly embedded
below.  `f32` sample values are modelled as exact rationals (ℚ): every
capture-side conversion in the source divides a small integer by a power of
two, which is exact in `f32`, and the playback-side products stay well within
the ranges where `f32` rounding cannot move a value across the integer
thresholds considered here by more than the stated tolerance.  Rust `as`
casts from float to an integer type are modelled as truncation toward zero
followed by saturation at the type bounds, which is the documented behaviour.
Buffers (`Vec<f32>`) are modelled as `List ℚ`; `drain(0..n)` becomes
`List.drop n` with the drained prefix `List.take n`.
-/

namespace Autotalk

/-- Truncation toward zero of a rational, the rounding used by Rust
float-to-integer `as` casts. -/
def truncRat (x : ℚ) : Int :=
  if 0 ≤ x then ⌊x⌋ else ⌈x⌉

/-- From `process_audio_data` (src/audio.rs:631-644): average every
consecutive group of `channels` samples of the drained chunk into one mono
sample.  The source computes `mono_size = chunk_size / channels` and, for
each `i < mono_size`, pushes the arithmetic mean of
`audio_chunk[i*channels..(i+1)*channels]`. -/
def downmixMono (channels : Nat) (audioChunk : List ℚ) : List ℚ :=
  (List.range (audioChunk.length / channels)).map fun i =>
    ((audioChunk.drop (i * channels)).take channels).sum / (channels : ℚ)

/-- From `process_audio_data` (src/audio.rs:632-648): the drained chunk is
downmixed when `channels > 1`, otherwise passed through unchanged. -/
def monoDownmixStep (channels : Nat) (audioChunk : List ℚ) : List ℚ :=
  if 1 < channels then downmixMono channels audioChunk else audioChunk

/-- Result of one capture-callback invocation of `process_audio_data`. -/
structure CaptureCallbackResult where
  buffer : List ℚ
  playbackBuffer : List ℚ
  sentChunks : List (List ℚ)
deriving DecidableEq

/-- From `process_audio_data` (src/audio.rs:604-655).  The input samples are
appended to the playback buffer when playback is enabled, then appended to
the accumulation buffer; with `samples_per_second = 16000` fixed in the
source and `chunk_size = samples_per_second * channels`, an `if` (not a
loop) drains one chunk from the front and sends its mono downmix when the
buffer holds at least `chunk_size` samples. -/
def processAudioData (input : List ℚ) (buffer : List ℚ) (channels : Nat)
    (playbackEnabled : Bool) (playbackBuffer : List ℚ) : CaptureCallbackResult :=
  let playbackBuffer' := if playbackEnabled then playbackBuffer ++ input else playbackBuffer
  let buffer' := buffer ++ input
  let chunkSize := 16000 * channels
  if chunkSize ≤ buffer'.length then
    let audioChunk := buffer'.take chunkSize
    { buffer := buffer'.drop chunkSize
      playbackBuffer := playbackBuffer'
      sentChunks := [monoDownmixStep channels audioChunk] }
  else
    { buffer := buffer', playbackBuffer := playbackBuffer', sentChunks := [] }

theorem downmixMono_length (channels : Nat) (audioChunk : List ℚ) :
    (downmixMono channels audioChunk).length = audioChunk.length / channels := by
  simp [downmixMono]

theorem downmixMono_getD (channels : Nat) (audioChunk : List ℚ) (i : Nat)
    (hi : i < audioChunk.length / channels) :
    (downmixMono channels audioChunk).getD i 0 =
      ((audioChunk.drop (i * channels)).take channels).sum / (channels : ℚ) := by
  have hlen : i < (downmixMono channels audioChunk).length := by
    simpa [downmixMono_length] using hi
  rw [List.getD_eq_getElem _ _ hlen]
  simp [downmixMono]

theorem take_one_drop (l : List ℚ) (i : Nat) (h : i < l.length) :
    (l.drop i).take 1 = [l.getD i 0] := by
  induction l generalizing i with
  | nil => simp at h
  | cons a t ih =>
    cases i with
    | zero => simp
    | succ n =>
      simp only [List.drop_succ_cons, List.getD_cons_succ]
      exact ih n (by simpa using h)

/-- C9: for every channel count `channels ≥ 1` and drained block of
`channels * k` samples, the mono conversion yields exactly `k` samples, the
`i`-th being the arithmetic mean of the `i`-th consecutive group of
`channels` source samples; for `channels = 1` the block is passed through
unchanged. -/
theorem claim9_downmix (channels k : Nat) (block : List ℚ)
    (hch : 1 ≤ channels) (hlen : block.length = channels * k) :
    (monoDownmixStep channels block).length = k ∧
    (∀ i, i < k →
      (monoDownmixStep channels block).getD i 0 =
        ((block.drop (i * channels)).take channels).sum / (channels : ℚ)) ∧
    (channels = 1 → monoDownmixStep channels block = block) := by
  have hdiv : block.length / channels = k := by
    rw [hlen]
    exact Nat.mul_div_cancel_left k (by omega)
  by_cases hc : 1 < channels
  · refine ⟨?_, ?_, ?_⟩
    · simp [monoDownmixStep, hc, downmixMono_length, hdiv]
    · intro i hi
      simp only [monoDownmixStep, if_pos hc]
      exact downmixMono_getD channels block i (by omega)
    · intro h1
      omega
  · have hc1 : channels = 1 := by omega
    subst hc1
    refine ⟨?_, ?_, fun _ => ?_⟩
    · simp only [monoDownmixStep, if_neg hc]
      omega
    · intro i hi
      have hib : i < block.length := by omega
      simp only [monoDownmixStep, if_neg hc, Nat.mul_one]
      rw [take_one_drop block i hib]
      simp
    · simp [monoDownmixStep]

theorem claim9_witness :
    (1 ≤ 2 ∧ ([1, 3, 5, 7] : List ℚ).length = 2 * 2) ∧
    ((monoDownmixStep 2 [1, 3, 5, 7]).length = 2 ∧
     (∀ i, i < 2 →
       (monoDownmixStep 2 ([1, 3, 5, 7] : List ℚ)).getD i 0 =
         ((([1, 3, 5, 7] : List ℚ).drop (i * 2)).take 2).sum / (2 : ℚ)) ∧
     (2 = 1 → monoDownmixStep 2 ([1, 3, 5, 7] : List ℚ) = [1, 3, 5, 7])) :=
  ⟨⟨by norm_num, by decide⟩, claim9_downmix 2 2 [1, 3, 5, 7] (by norm_num) (by decide)⟩

/-- C1 fails on the code: the source drains with an `if`, not a `while`, so
one callback delivering two seconds of mono audio at the 16 kHz target rate
leaves a full chunk (16000 samples, not strictly fewer) in the buffer and
sends only one chunk. -/
theorem claim1_counterexample :
    (processAudioData (List.replicate 32000 (0 : ℚ)) [] 1 false []).buffer.length = 16000 ∧
    ¬ (processAudioData (List.replicate 32000 (0 : ℚ)) [] 1 false []).buffer.length
        < 16000 * 1 ∧
    (processAudioData (List.replicate 32000 (0 : ℚ)) [] 1 false []).sentChunks.length = 1 := by
  simp only [processAudioData, List.nil_append, List.length_replicate]
  rw [if_pos (by norm_num)]
  refine ⟨?_, ?_, ?_⟩
  · simp only [List.length_drop, List.length_replicate]
  · simp only [List.length_drop, List.length_replicate]
    norm_num
  · rfl

/-- C1 amended: chunk emission happens at most once per callback, with the
fixed threshold `16000 * channels` (16 kHz is hard-coded, independent of the
negotiated rate): when the buffer after appending holds at least
`16000 * channels` samples, exactly that many are removed from the front,
downmixed to mono, and exactly one AudioChunk is sent; the remainder,
which may itself still be a full chunk or more, stays buffered. -/
theorem claim1_amended (input buffer : List ℚ) (channels : Nat)
    (playbackEnabled : Bool) (playbackBuffer : List ℚ)
    (h : 16000 * channels ≤ (buffer ++ input).length) :
    (processAudioData input buffer channels playbackEnabled playbackBuffer).buffer =
      (buffer ++ input).drop (16000 * channels) ∧
    (processAudioData input buffer channels playbackEnabled playbackBuffer).buffer.length =
      (buffer ++ input).length - 16000 * channels ∧
    (processAudioData input buffer channels playbackEnabled playbackBuffer).sentChunks =
      [monoDownmixStep channels ((buffer ++ input).take (16000 * channels))] ∧
    (processAudioData input buffer channels playbackEnabled playbackBuffer).sentChunks.length
      = 1 := by
  have h' : 16000 * channels ≤ buffer.length + input.length := by
    simpa using h
  simp [processAudioData, h']

theorem claim1_witness :
    (16000 * 1 ≤ (([] : List ℚ) ++ List.replicate 16001 (0 : ℚ)).length) ∧
    ((processAudioData (List.replicate 16001 (0 : ℚ)) [] 1 false []).buffer =
        (([] : List ℚ) ++ List.replicate 16001 (0 : ℚ)).drop (16000 * 1) ∧
     (processAudioData (List.replicate 16001 (0 : ℚ)) [] 1 false []).buffer.length =
        (([] : List ℚ) ++ List.replicate 16001 (0 : ℚ)).length - 16000 * 1 ∧
     (processAudioData (List.replicate 16001 (0 : ℚ)) [] 1 false []).sentChunks =
        [monoDownmixStep 1 ((([] : List ℚ) ++ List.replicate 16001 (0 : ℚ)).take (16000 * 1))] ∧
     (processAudioData (List.replicate 16001 (0 : ℚ)) [] 1 false []).sentChunks.length = 1) :=
  ⟨by rw [List.nil_append, List.length_replicate]; norm_num,
   claim1_amended (List.replicate 16001 (0 : ℚ)) [] 1 false []
     (by rw [List.nil_append, List.length_replicate]; norm_num)⟩

/-- A supported input configuration range as reported by the audio host:
channel count plus an inclusive supported sample-rate range
(cpal's `SupportedStreamConfigRange`). -/
structure SupportedStreamConfig where
  channels : Nat
  minSampleRate : Nat
  maxSampleRate : Nat
deriving DecidableEq

/-- Rust `Iterator::min_by_key`: of several equally minimal elements the
first is returned. -/
def minByKey {α : Type} (k : α → Nat) : List α → Option α
  | [] => none
  | x :: xs => some (xs.foldl (fun best y => if k y < k best then y else best) x)

/-- Rust `Iterator::max_by_key`: of several equally maximal elements the
last is returned. -/
def maxByKey {α : Type} (k : α → Nat) : List α → Option α
  | [] => none
  | x :: xs => some (xs.foldl (fun best y => if k best ≤ k y then y else best) x)

/-- Step-1 predicate of `start_capture` (src/audio.rs:257-264): exact
channel match with the desired rate inside the supported range. -/
def step1Pred (dc dr : Nat) (c : SupportedStreamConfig) : Bool :=
  decide (c.channels = dc) && decide (c.minSampleRate ≤ dr) && decide (dr ≤ c.maxSampleRate)

/-- Step-2 key of `start_capture` (src/audio.rs:272-278): distance from the
desired rate to the nearer bound of the supported range, computed in the
source as `min((min-rate).abs(), (max-rate).abs())` over `i32`. -/
def rateDistance (dr : Nat) (c : SupportedStreamConfig) : Nat :=
  min ((c.minSampleRate : Int) - (dr : Int)).natAbs ((c.maxSampleRate : Int) - (dr : Int)).natAbs

/-- Configuration selection of `start_capture` (src/audio.rs:255-296): four
fallback steps, each tried only when every earlier one found nothing. -/
def selectConfig (cfgs : List SupportedStreamConfig) (dc dr : Nat) :
    Option SupportedStreamConfig :=
  match cfgs.find? (step1Pred dc dr) with
  | some c => some c
  | none =>
    match minByKey (rateDistance dr) (cfgs.filter fun c => decide (c.channels = dc)) with
    | some c => some c
    | none =>
      match maxByKey (fun c => c.maxSampleRate) (cfgs.filter fun c => decide (c.channels = 1)) with
      | some c => some c
      | none => cfgs.head?

/-- Sample-rate choice of `start_capture` (src/audio.rs:302-310): the
desired rate when it lies inside the selected range, otherwise the nearest
bound. -/
def chosenSampleRate (c : SupportedStreamConfig) (dr : Nat) : Nat :=
  if c.minSampleRate ≤ dr ∧ dr ≤ c.maxSampleRate then dr
  else if dr < c.minSampleRate then c.minSampleRate
  else c.maxSampleRate

/-- Negotiation entry of `start_capture` (src/audio.rs:236-319): an empty
configuration list fails immediately; otherwise the selected configuration
and its chosen sample rate are returned. -/
def startCaptureConfig (cfgs : List SupportedStreamConfig) (dc dr : Nat) :
    Except String (SupportedStreamConfig × Nat) :=
  if cfgs.isEmpty then Except.error "设备不支持任何输入配置"
  else
    match selectConfig cfgs dc dr with
    | some c => Except.ok (c, chosenSampleRate c dr)
    | none => Except.error "无法为该设备找到兼容的音频配置，请尝试其他麦克风设备"

/-- Propositional form of the step-1 predicate. -/
def Step1Matches (dc dr : Nat) (c : SupportedStreamConfig) : Prop :=
  c.channels = dc ∧ c.minSampleRate ≤ dr ∧ dr ≤ c.maxSampleRate

/-- The spec's negotiation-precedence property, written from the spec's
words: the selected configuration is a reported one; it satisfies step 1
when some reported configuration does; failing that it is a channel match
minimizing the distance to the nearer range bound; failing that it is a
mono configuration of maximal supported rate; failing that it is the first
reported configuration. -/
def NegotiationSpec (cfgs : List SupportedStreamConfig) (dc dr : Nat)
    (c : SupportedStreamConfig) : Prop :=
  c ∈ cfgs ∧
  ((∃ x ∈ cfgs, Step1Matches dc dr x) → Step1Matches dc dr c) ∧
  ((¬ ∃ x ∈ cfgs, Step1Matches dc dr x) → (∃ x ∈ cfgs, x.channels = dc) →
    c.channels = dc ∧ ∀ y ∈ cfgs, y.channels = dc → rateDistance dr c ≤ rateDistance dr y) ∧
  ((¬ ∃ x ∈ cfgs, Step1Matches dc dr x) → (¬ ∃ x ∈ cfgs, x.channels = dc) →
    (∃ x ∈ cfgs, x.channels = 1) →
    c.channels = 1 ∧ ∀ y ∈ cfgs, y.channels = 1 → y.maxSampleRate ≤ c.maxSampleRate) ∧
  ((¬ ∃ x ∈ cfgs, Step1Matches dc dr x) → (¬ ∃ x ∈ cfgs, x.channels = dc) →
    (¬ ∃ x ∈ cfgs, x.channels = 1) → cfgs.head? = some c)

theorem step1Pred_iff (dc dr : Nat) (c : SupportedStreamConfig) :
    step1Pred dc dr c = true ↔ Step1Matches dc dr c := by
  simp [step1Pred, Step1Matches, Bool.and_eq_true, decide_eq_true_eq, and_assoc]

theorem foldlMin_spec {α : Type} (k : α → Nat) (xs : List α) (x : α) :
    (xs.foldl (fun best y => if k y < k best then y else best) x = x ∨
      xs.foldl (fun best y => if k y < k best then y else best) x ∈ xs) ∧
    k (xs.foldl (fun best y => if k y < k best then y else best) x) ≤ k x ∧
    ∀ y ∈ xs, k (xs.foldl (fun best y => if k y < k best then y else best) x) ≤ k y := by
  induction xs generalizing x with
  | nil => simp
  | cons a as ih =>
    simp only [List.foldl_cons, List.mem_cons]
    by_cases h : k a < k x
    · rw [if_pos h]
      obtain ⟨hmem, hle, hall⟩ := ih a
      refine ⟨?_, le_trans hle (le_of_lt h), ?_⟩
      · rcases hmem with h1 | h1
        · exact Or.inr (Or.inl h1)
        · exact Or.inr (Or.inr h1)
      · intro y hy
        rcases hy with rfl | hy
        · exact hle
        · exact hall y hy
    · rw [if_neg h]
      obtain ⟨hmem, hle, hall⟩ := ih x
      push_neg at h
      refine ⟨?_, hle, ?_⟩
      · rcases hmem with h1 | h1
        · exact Or.inl h1
        · exact Or.inr (Or.inr h1)
      · intro y hy
        rcases hy with rfl | hy
        · exact le_trans hle h
        · exact hall y hy

theorem foldlMax_spec {α : Type} (k : α → Nat) (xs : List α) (x : α) :
    (xs.foldl (fun best y => if k best ≤ k y then y else best) x = x ∨
      xs.foldl (fun best y => if k best ≤ k y then y else best) x ∈ xs) ∧
    k x ≤ k (xs.foldl (fun best y => if k best ≤ k y then y else best) x) ∧
    ∀ y ∈ xs, k y ≤ k (xs.foldl (fun best y => if k best ≤ k y then y else best) x) := by
  induction xs generalizing x with
  | nil => simp
  | cons a as ih =>
    simp only [List.foldl_cons, List.mem_cons]
    by_cases h : k x ≤ k a
    · rw [if_pos h]
      obtain ⟨hmem, hle, hall⟩ := ih a
      refine ⟨?_, le_trans h hle, ?_⟩
      · rcases hmem with h1 | h1
        · exact Or.inr (Or.inl h1)
        · exact Or.inr (Or.inr h1)
      · intro y hy
        rcases hy with rfl | hy
        · exact hle
        · exact hall y hy
    · rw [if_neg h]
      obtain ⟨hmem, hle, hall⟩ := ih x
      push_neg at h
      refine ⟨?_, hle, ?_⟩
      · rcases hmem with h1 | h1
        · exact Or.inl h1
        · exact Or.inr (Or.inr h1)
      · intro y hy
        rcases hy with rfl | hy
        · exact le_trans (le_of_lt h) hle
        · exact hall y hy

theorem minByKey_mem_le {α : Type} (k : α → Nat) (l : List α) (c : α)
    (h : minByKey k l = some c) : c ∈ l ∧ ∀ y ∈ l, k c ≤ k y := by
  cases l with
  | nil => simp [minByKey] at h
  | cons x xs =>
    simp only [minByKey, Option.some.injEq] at h
    subst h
    obtain ⟨hmem, hle, hall⟩ := foldlMin_spec k xs x
    constructor
    · rcases hmem with h1 | h1
      · rw [h1]; exact List.mem_cons_self x xs
      · exact List.mem_cons_of_mem x h1
    · intro y hy
      rcases List.mem_cons.mp hy with rfl | hy
      · exact hle
      · exact hall y hy

theorem maxByKey_mem_ge {α : Type} (k : α → Nat) (l : List α) (c : α)
    (h : maxByKey k l = some c) : c ∈ l ∧ ∀ y ∈ l, k y ≤ k c := by
  cases l with
  | nil => simp [maxByKey] at h
  | cons x xs =>
    simp only [maxByKey, Option.some.injEq] at h
    subst h
    obtain ⟨hmem, hle, hall⟩ := foldlMax_spec k xs x
    constructor
    · rcases hmem with h1 | h1
      · rw [h1]; exact List.mem_cons_self x xs
      · exact List.mem_cons_of_mem x h1
    · intro y hy
      rcases List.mem_cons.mp hy with rfl | hy
      · exact hle
      · exact hall y hy

theorem minByKey_eq_none {α : Type} (k : α → Nat) (l : List α)
    (h : minByKey k l = none) : l = [] := by
  cases l with
  | nil => rfl
  | cons x xs => simp [minByKey] at h

theorem maxByKey_eq_none {α : Type} (k : α → Nat) (l : List α)
    (h : maxByKey k l = none) : l = [] := by
  cases l with
  | nil => rfl
  | cons x xs => simp [maxByKey] at h

theorem selectConfig_meets_spec (cfgs : List SupportedStreamConfig) (dc dr : Nat)
    (h : cfgs ≠ []) :
    ∃ c, selectConfig cfgs dc dr = some c ∧ NegotiationSpec cfgs dc dr c := by
  cases hf : cfgs.find? (step1Pred dc dr) with
  | some c =>
    have hm : c ∈ cfgs := List.mem_of_find?_eq_some hf
    have hp : Step1Matches dc dr c := (step1Pred_iff dc dr c).mp (List.find?_some hf)
    refine ⟨c, by simp [selectConfig, hf], hm, fun _ => hp, ?_, ?_, ?_⟩ <;>
      · intro hno
        exact absurd ⟨c, hm, hp⟩ hno
  | none =>
    have hnostep1 : ¬ ∃ x ∈ cfgs, Step1Matches dc dr x := by
      rintro ⟨x, hx, hp⟩
      have hnone := List.find?_eq_none.mp hf x hx
      exact hnone ((step1Pred_iff dc dr x).mpr hp)
    cases hmin : minByKey (rateDistance dr) (cfgs.filter fun c => decide (c.channels = dc)) with
    | some c =>
      obtain ⟨hmemf, hall⟩ := minByKey_mem_le _ _ _ hmin
      have hcm : c ∈ cfgs ∧ c.channels = dc := by
        have := List.mem_filter.mp hmemf
        exact ⟨this.1, by simpa using this.2⟩
      refine ⟨c, by simp [selectConfig, hf, hmin], hcm.1,
        fun hex => absurd hex hnostep1, fun _ _ => ⟨hcm.2, ?_⟩,
        fun _ hnoch _ => absurd ⟨c, hcm.1, hcm.2⟩ hnoch,
        fun _ hnoch _ => absurd ⟨c, hcm.1, hcm.2⟩ hnoch⟩
      intro y hy hydc
      exact hall y (List.mem_filter.mpr ⟨hy, by simpa using hydc⟩)
    | none =>
      have hfilterdc := minByKey_eq_none _ _ hmin
      have hnoch : ¬ ∃ x ∈ cfgs, x.channels = dc := by
        rintro ⟨x, hx, hcx⟩
        have hxf : x ∈ cfgs.filter fun c => decide (c.channels = dc) :=
          List.mem_filter.mpr ⟨hx, by simpa using hcx⟩
        rw [hfilterdc] at hxf
        simp at hxf
      cases hmax : maxByKey (fun c => c.maxSampleRate)
          (cfgs.filter fun c => decide (c.channels = 1)) with
      | some c =>
        obtain ⟨hmemf, hall⟩ := maxByKey_mem_ge _ _ _ hmax
        have hcm : c ∈ cfgs ∧ c.channels = 1 := by
          have := List.mem_filter.mp hmemf
          exact ⟨this.1, by simpa using this.2⟩
        refine ⟨c, by simp [selectConfig, hf, hmin, hmax], hcm.1,
          fun hex => absurd hex hnostep1, fun _ hch => absurd hch hnoch,
          fun _ _ _ => ⟨hcm.2, ?_⟩,
          fun _ _ hno1 => absurd ⟨c, hcm.1, hcm.2⟩ hno1⟩
        intro y hy hy1
        exact hall y (List.mem_filter.mpr ⟨hy, by simpa using hy1⟩)
      | none =>
        have hfilter1 := maxByKey_eq_none _ _ hmax
        have hno1 : ¬ ∃ x ∈ cfgs, x.channels = 1 := by
          rintro ⟨x, hx, hcx⟩
          have hxf : x ∈ cfgs.filter fun c => decide (c.channels = 1) :=
            List.mem_filter.mpr ⟨hx, by simpa using hcx⟩
          rw [hfilter1] at hxf
          simp at hxf
        cases cfgs with
        | nil => exact absurd rfl h
        | cons a t =>
          refine ⟨a, by simp [selectConfig, hf, hmin, hmax], List.mem_cons_self a t,
            fun hex => absurd hex hnostep1, fun _ hch => absurd hch hnoch,
            fun _ _ hex1 => absurd hex1 hno1, fun _ _ _ => rfl⟩

/-- C2: for every non-empty configuration list, negotiation selects a
configuration satisfying the four-step precedence (each later step only
when every earlier one found nothing) and the chosen sample rate is the
desired rate when in range, else the nearest bound; the spec's concrete
example selects the second configuration at 44100; zero configurations
fail with an error. -/
theorem claim2_negotiation (cfgs : List SupportedStreamConfig) (dc dr : Nat)
    (h : cfgs ≠ []) :
    (∃ c, selectConfig cfgs dc dr = some c ∧ NegotiationSpec cfgs dc dr c ∧
        startCaptureConfig cfgs dc dr = Except.ok (c, chosenSampleRate c dr)) ∧
    (∀ c' : SupportedStreamConfig,
        (c'.minSampleRate ≤ dr ∧ dr ≤ c'.maxSampleRate → chosenSampleRate c' dr = dr) ∧
        (dr < c'.minSampleRate → chosenSampleRate c' dr = c'.minSampleRate) ∧
        (c'.minSampleRate ≤ dr → c'.maxSampleRate < dr →
          chosenSampleRate c' dr = c'.maxSampleRate)) ∧
    startCaptureConfig [] dc dr = Except.error "设备不支持任何输入配置" ∧
    selectConfig [⟨2, 8000, 48000⟩, ⟨1, 44100, 48000⟩] 1 16000 = some ⟨1, 44100, 48000⟩ ∧
    chosenSampleRate ⟨1, 44100, 48000⟩ 16000 = 44100 := by
  obtain ⟨c, hsel, hspec⟩ := selectConfig_meets_spec cfgs dc dr h
  have hne : cfgs.isEmpty = false := by
    cases cfgs
    · exact absurd rfl h
    · rfl
  refine ⟨⟨c, hsel, hspec, by simp [startCaptureConfig, hne, hsel]⟩, ?_, by rfl, by decide,
    by decide⟩
  intro c'
  refine ⟨fun h1 => by simp [chosenSampleRate, h1], fun h2 => ?_, fun h3 h4 => ?_⟩
  · have hn : ¬ (c'.minSampleRate ≤ dr ∧ dr ≤ c'.maxSampleRate) := fun hx => by omega
    rw [chosenSampleRate, if_neg hn, if_pos h2]
  · have hn : ¬ (c'.minSampleRate ≤ dr ∧ dr ≤ c'.maxSampleRate) := fun hx => by omega
    have hn2 : ¬ dr < c'.minSampleRate := by omega
    rw [chosenSampleRate, if_neg hn, if_neg hn2]

theorem claim2_witness :
    (([⟨2, 8000, 48000⟩, ⟨1, 44100, 48000⟩] : List SupportedStreamConfig) ≠ []) ∧
    ((∃ c, selectConfig [⟨2, 8000, 48000⟩, ⟨1, 44100, 48000⟩] 1 16000 = some c ∧
        NegotiationSpec [⟨2, 8000, 48000⟩, ⟨1, 44100, 48000⟩] 1 16000 c ∧
        startCaptureConfig [⟨2, 8000, 48000⟩, ⟨1, 44100, 48000⟩] 1 16000 =
          Except.ok (c, chosenSampleRate c 16000)) ∧
    (∀ c' : SupportedStreamConfig,
        (c'.minSampleRate ≤ 16000 ∧ 16000 ≤ c'.maxSampleRate →
          chosenSampleRate c' 16000 = 16000) ∧
        (16000 < c'.minSampleRate → chosenSampleRate c' 16000 = c'.minSampleRate) ∧
        (c'.minSampleRate ≤ 16000 → c'.maxSampleRate < 16000 →
          chosenSampleRate c' 16000 = c'.maxSampleRate)) ∧
    startCaptureConfig [] 1 16000 = Except.error "设备不支持任何输入配置" ∧
    selectConfig [⟨2, 8000, 48000⟩, ⟨1, 44100, 48000⟩] 1 16000 = some ⟨1, 44100, 48000⟩ ∧
    chosenSampleRate ⟨1, 44100, 48000⟩ 16000 = 44100) :=
  ⟨by decide, claim2_negotiation [⟨2, 8000, 48000⟩, ⟨1, 44100, 48000⟩] 1 16000 (by decide)⟩

/-- Rust float-to-integer `as` cast: truncation toward zero, saturating at
the integer type's bounds. -/
def satCast (lo hi : Int) (x : ℚ) : Int :=
  max lo (min hi (truncRat x))

/-- Capture-side conversion (src/audio.rs:363-364): `s as f32 / 32768.0`. -/
def i16ToFloat (s : Int) : ℚ := (s : ℚ) / 32768

/-- Capture-side conversion (src/audio.rs:376-377):
`((s as f32) / 32768.0) - 1.0`. -/
def u16ToFloat (s : Int) : ℚ := (s : ℚ) / 32768 - 1

/-- Capture-side conversion (src/audio.rs:389-390):
`((s as f32) / 128.0) - 1.0`. -/
def u8ToFloat (s : Int) : ℚ := (s : ℚ) / 128 - 1

/-- Capture-side F32 samples are used as-is (src/audio.rs:351-353). -/
def f32Passthrough (x : ℚ) : ℚ := x

/-- Playback-side conversion (src/audio.rs:518):
`(buffer[i] * 32767.0) as i16`. -/
def floatToI16 (x : ℚ) : Int := satCast (-32768) 32767 (x * 32767)

/-- Playback-side conversion (src/audio.rs:542):
`((buffer[i] + 1.0) * 32767.5) as u16`, with `32767.5 = 65535/2`. -/
def floatToU16 (x : ℚ) : Int := satCast 0 65535 ((x + 1) * (65535 / 2 : ℚ))

/-- Playback-side conversion (src/audio.rs:566):
`((buffer[i] + 1.0) * 127.5) as u8`, with `127.5 = 255/2`. -/
def floatToU8 (x : ℚ) : Int := satCast 0 255 ((x + 1) * (255 / 2 : ℚ))

/-- Playback-side F32 samples are copied verbatim (src/audio.rs:495). -/
def floatToF32 (x : ℚ) : ℚ := x

/-- Loopback output callback, F32 format (src/audio.rs:487-507): when the
playback buffer is non-empty, `len = min(data.len(), buffer.len())` samples
are copied from its front into the output and drained, the rest of the
output left untouched; only when the buffer is empty is the whole output
filled with the silence value 0.0.  The first component is the output
buffer after the callback (its pre-callback contents are the first
argument), the second the remaining playback buffer. -/
def outputCallbackF32 (out : List ℚ) (buffer : List ℚ) : List ℚ × List ℚ :=
  if !buffer.isEmpty then
    let len := min out.length buffer.length
    (buffer.take len ++ out.drop len, buffer.drop len)
  else
    (List.replicate out.length 0, buffer)

/-- Loopback output callback, I16 format (src/audio.rs:508-531); silence
value 0. -/
def outputCallbackI16 (out : List Int) (buffer : List ℚ) : List Int × List ℚ :=
  if !buffer.isEmpty then
    let len := min out.length buffer.length
    ((buffer.take len).map floatToI16 ++ out.drop len, buffer.drop len)
  else
    (List.replicate out.length 0, buffer)

/-- Loopback output callback, U16 format (src/audio.rs:532-555); silence
value 32768. -/
def outputCallbackU16 (out : List Int) (buffer : List ℚ) : List Int × List ℚ :=
  if !buffer.isEmpty then
    let len := min out.length buffer.length
    ((buffer.take len).map floatToU16 ++ out.drop len, buffer.drop len)
  else
    (List.replicate out.length 32768, buffer)

/-- Loopback output callback, U8 format (src/audio.rs:556-579); silence
value 128. -/
def outputCallbackU8 (out : List Int) (buffer : List ℚ) : List Int × List ℚ :=
  if !buffer.isEmpty then
    let len := min out.length buffer.length
    ((buffer.take len).map floatToU8 ++ out.drop len, buffer.drop len)
  else
    (List.replicate out.length 128, buffer)

/-- C3 fails on the code: a non-empty playback buffer holding fewer samples
than requested leaves the unfilled output positions with their previous
contents instead of the silence value — here position 1 keeps the stale
value 2 rather than being set to 0.0. -/
theorem claim3_counterexample :
    outputCallbackF32 [1, 2] [9] = ([9, 2], []) ∧
    (outputCallbackF32 [1, 2] [9]).1.getD 1 0 ≠ 0 := by
  decide

theorem copyConvert_getD (conv : ℚ → Int) (out : List Int) (buffer : List ℚ)
    (i : Nat) (hi : i < out.length) :
    ((buffer.take (min out.length buffer.length)).map conv ++
        out.drop (min out.length buffer.length)).getD i 0 =
      if i < buffer.length then conv (buffer.getD i 0) else out.getD i 0 := by
  have hlenTake : ((buffer.take (min out.length buffer.length)).map conv).length
      = min out.length buffer.length := by
    rw [List.length_map, List.length_take]
    exact min_eq_left (Nat.min_le_right _ _)
  by_cases hib : i < buffer.length
  · have hilen : i < min out.length buffer.length := lt_min hi hib
    rw [if_pos hib, List.getD_eq_getElem?_getD, List.getD_eq_getElem?_getD,
      List.getElem?_append_left (by rw [hlenTake]; exact hilen),
      List.getElem?_map, List.getElem?_take_of_lt hilen,
      List.getElem?_eq_getElem hib]
    simp
  · have hilen : min out.length buffer.length ≤ i :=
      le_trans (Nat.min_le_right _ _) (Nat.not_lt.mp hib)
    rw [if_neg hib, List.getD_eq_getElem?_getD, List.getD_eq_getElem?_getD,
      List.getElem?_append_right (by rw [hlenTake]; exact hilen),
      List.getElem?_drop, hlenTake, Nat.add_sub_cancel' hilen]

theorem copyConvert_length (conv : ℚ → Int) (out : List Int) (buffer : List ℚ) :
    ((buffer.take (min out.length buffer.length)).map conv ++
        out.drop (min out.length buffer.length)).length = out.length := by
  rw [List.length_append, List.length_map, List.length_take, List.length_drop,
    min_eq_left (Nat.min_le_right _ _)]
  exact Nat.add_sub_cancel' (Nat.min_le_left _ _)

theorem drop_min_eq (buffer : List ℚ) (n : Nat) :
    buffer.drop (min n buffer.length) = buffer.drop n := by
  rcases le_total n buffer.length with hle | hle
  · rw [min_eq_left hle]
  · rw [min_eq_right hle, List.drop_length, List.drop_eq_nil_of_le hle]

/-- C3 amended: if the playback buffer is empty, every output position is
set to the format's silence value (0.0 for F32, 0 for I16, 32768 for U16,
128 for U8); if it is non-empty, for every format `min(n, len)` samples are
copied from its front (converted per format on the integer formats) and
removed, and output positions beyond the copied prefix keep their previous
contents rather than being silenced. -/
theorem claim3_amended (outF buffer : List ℚ) (outI outU16 outU8 : List Int) :
    (buffer = [] →
      outputCallbackF32 outF buffer = (List.replicate outF.length 0, buffer) ∧
      outputCallbackI16 outI buffer = (List.replicate outI.length 0, buffer) ∧
      outputCallbackU16 outU16 buffer = (List.replicate outU16.length 32768, buffer) ∧
      outputCallbackU8 outU8 buffer = (List.replicate outU8.length 128, buffer)) ∧
    (buffer ≠ [] →
      (∀ i, i < outF.length →
        (outputCallbackF32 outF buffer).1.getD i 0 =
          if i < buffer.length then buffer.getD i 0 else outF.getD i 0) ∧
      (outputCallbackF32 outF buffer).2 = buffer.drop outF.length ∧
      (outputCallbackF32 outF buffer).1.length = outF.length ∧
      (∀ i, i < outI.length →
        (outputCallbackI16 outI buffer).1.getD i 0 =
          if i < buffer.length then floatToI16 (buffer.getD i 0) else outI.getD i 0) ∧
      (outputCallbackI16 outI buffer).2 = buffer.drop outI.length ∧
      (outputCallbackI16 outI buffer).1.length = outI.length ∧
      (∀ i, i < outU16.length →
        (outputCallbackU16 outU16 buffer).1.getD i 0 =
          if i < buffer.length then floatToU16 (buffer.getD i 0) else outU16.getD i 0) ∧
      (outputCallbackU16 outU16 buffer).2 = buffer.drop outU16.length ∧
      (outputCallbackU16 outU16 buffer).1.length = outU16.length ∧
      (∀ i, i < outU8.length →
        (outputCallbackU8 outU8 buffer).1.getD i 0 =
          if i < buffer.length then floatToU8 (buffer.getD i 0) else outU8.getD i 0) ∧
      (outputCallbackU8 outU8 buffer).2 = buffer.drop outU8.length ∧
      (outputCallbackU8 outU8 buffer).1.length = outU8.length) := by
  constructor
  · intro he
    subst he
    refine ⟨?_, ?_, ?_, ?_⟩ <;> rfl
  · intro hne
    have hbe : buffer.isEmpty = false := by
      cases buffer
      · exact absurd rfl hne
      · rfl
    simp only [outputCallbackF32, outputCallbackI16, outputCallbackU16, outputCallbackU8,
      hbe, Bool.not_false, if_true]
    have hlenTake : (buffer.take (min outF.length buffer.length)).length
        = min outF.length buffer.length := by
      rw [List.length_take]
      exact min_eq_left (Nat.min_le_right _ _)
    refine ⟨?_, ?_, ?_, fun i hi => copyConvert_getD floatToI16 outI buffer i hi,
      drop_min_eq buffer outI.length, copyConvert_length floatToI16 outI buffer,
      fun i hi => copyConvert_getD floatToU16 outU16 buffer i hi,
      drop_min_eq buffer outU16.length, copyConvert_length floatToU16 outU16 buffer,
      fun i hi => copyConvert_getD floatToU8 outU8 buffer i hi,
      drop_min_eq buffer outU8.length, copyConvert_length floatToU8 outU8 buffer⟩
    · intro i hi
      by_cases hib : i < buffer.length
      · have hilen : i < min outF.length buffer.length := lt_min hi hib
        rw [if_pos hib, List.getD_eq_getElem?_getD, List.getD_eq_getElem?_getD,
          List.getElem?_append_left (by rw [hlenTake]; exact hilen),
          List.getElem?_take_of_lt hilen]
      · have hilen : min outF.length buffer.length ≤ i :=
          le_trans (Nat.min_le_right _ _) (Nat.not_lt.mp hib)
        rw [if_neg hib, List.getD_eq_getElem?_getD, List.getD_eq_getElem?_getD,
          List.getElem?_append_right (by rw [hlenTake]; exact hilen),
          List.getElem?_drop, hlenTake, Nat.add_sub_cancel' hilen]
    · exact drop_min_eq buffer outF.length
    · rw [List.length_append, List.length_drop, hlenTake]
      exact Nat.add_sub_cancel' (Nat.min_le_left _ _)

theorem claim3_witness :
    (([4, 5] : List ℚ) ≠ []) ∧
    ((∀ i, i < ([1, 2, 3] : List ℚ).length →
        (outputCallbackF32 [1, 2, 3] [4, 5]).1.getD i 0 =
          if i < ([4, 5] : List ℚ).length then ([4, 5] : List ℚ).getD i 0
          else ([1, 2, 3] : List ℚ).getD i 0) ∧
      (outputCallbackF32 [1, 2, 3] [4, 5]).2 = ([4, 5] : List ℚ).drop ([1, 2, 3] : List ℚ).length ∧
      (outputCallbackF32 [1, 2, 3] [4, 5]).1.length = ([1, 2, 3] : List ℚ).length ∧
      (∀ i, i < ([7] : List Int).length →
        (outputCallbackI16 [7] [4, 5]).1.getD i 0 =
          if i < ([4, 5] : List ℚ).length then floatToI16 (([4, 5] : List ℚ).getD i 0)
          else ([7] : List Int).getD i 0) ∧
      (outputCallbackI16 [7] [4, 5]).2 = ([4, 5] : List ℚ).drop ([7] : List Int).length ∧
      (outputCallbackI16 [7] [4, 5]).1.length = ([7] : List Int).length ∧
      (∀ i, i < ([8] : List Int).length →
        (outputCallbackU16 [8] [4, 5]).1.getD i 0 =
          if i < ([4, 5] : List ℚ).length then floatToU16 (([4, 5] : List ℚ).getD i 0)
          else ([8] : List Int).getD i 0) ∧
      (outputCallbackU16 [8] [4, 5]).2 = ([4, 5] : List ℚ).drop ([8] : List Int).length ∧
      (outputCallbackU16 [8] [4, 5]).1.length = ([8] : List Int).length ∧
      (∀ i, i < ([9] : List Int).length →
        (outputCallbackU8 [9] [4, 5]).1.getD i 0 =
          if i < ([4, 5] : List ℚ).length then floatToU8 (([4, 5] : List ℚ).getD i 0)
          else ([9] : List Int).getD i 0) ∧
      (outputCallbackU8 [9] [4, 5]).2 = ([4, 5] : List ℚ).drop ([9] : List Int).length ∧
      (outputCallbackU8 [9] [4, 5]).1.length = ([9] : List Int).length) :=
  ⟨by decide, (claim3_amended [1, 2, 3] [4, 5] [7] [8] [9]).2 (by decide)⟩

theorem truncRat_between_of_nonneg (s : Int) (q : ℚ) (_hs : 0 ≤ s)
    (h1 : (s : ℚ) - 1 ≤ q) (h2 : q ≤ (s : ℚ)) :
    s - 1 ≤ truncRat q ∧ truncRat q ≤ s := by
  unfold truncRat
  by_cases hq : 0 ≤ q
  · rw [if_pos hq]
    constructor
    · refine Int.le_floor.mpr ?_
      push_cast
      linarith
    · have hfl := Int.floor_le_floor h2
      simpa using hfl
  · rw [if_neg hq]
    constructor
    · have hcl := Int.ceil_mono h1
      have : ((s - 1 : Int) : ℚ) = (s : ℚ) - 1 := by push_cast; ring
      rw [← this, Int.ceil_intCast] at hcl
      exact hcl
    · exact Int.ceil_le.mpr h2

theorem truncRat_between_of_nonpos (s : Int) (q : ℚ) (hs : s ≤ 0)
    (h1 : (s : ℚ) ≤ q) (h2 : q ≤ (s : ℚ) + 1) :
    s ≤ truncRat q ∧ truncRat q ≤ s + 1 := by
  unfold truncRat
  by_cases hq : 0 ≤ q
  · rw [if_pos hq]
    constructor
    · exact le_trans hs (Int.floor_nonneg.mpr hq)
    · have hfl := Int.floor_le_floor h2
      have : ((s + 1 : Int) : ℚ) = (s : ℚ) + 1 := by push_cast; ring
      rw [← this, Int.floor_intCast] at hfl
      exact hfl
  · rw [if_neg hq]
    constructor
    · have hcl := Int.ceil_mono h1
      simpa using hcl
    · refine Int.ceil_le.mpr ?_
      push_cast
      linarith

theorem clampAbs (lo hi t s : Int) (hlo : lo ≤ s) (hshi : s ≤ hi)
    (h1 : s - 1 ≤ t) (h2 : t ≤ s + 1) : |max lo (min hi t) - s| ≤ 1 := by
  have hmin : min hi t = t ∨ min hi t = hi := by
    rcases le_total hi t with h | h
    · exact Or.inr (min_eq_left h)
    · exact Or.inl (min_eq_right h)
  have hmax : ∀ u : Int, max lo u = u ∨ max lo u = lo := by
    intro u
    rcases le_total lo u with h | h
    · exact Or.inl (max_eq_right h)
    · exact Or.inr (max_eq_left h)
  rw [abs_le]
  rcases hmin with hm | hm <;> rw [hm] <;> rcases hmax _ with hx | hx <;> rw [hx] <;>
    constructor <;> omega

/-- C5: for every supported hardware representation, converting a sample to
float with the capture-side formula and back with the playback-side formula
recovers the original value to within one quantization step: exactly for
F32, and with absolute error at most 1 for I16, U16 and U8 over their full
representable ranges (float arithmetic modelled as exact rational
arithmetic; the `as` casts as truncation toward zero with saturation). -/
theorem claim5_roundtrip (x : ℚ) (a b c : Int)
    (ha1 : -32768 ≤ a) (ha2 : a ≤ 32767)
    (hb1 : 0 ≤ b) (hb2 : b ≤ 65535)
    (hc1 : 0 ≤ c) (hc2 : c ≤ 255) :
    floatToF32 (f32Passthrough x) = x ∧
    |floatToI16 (i16ToFloat a) - a| ≤ 1 ∧
    |floatToU16 (u16ToFloat b) - b| ≤ 1 ∧
    |floatToU8 (u8ToFloat c) - c| ≤ 1 := by
  refine ⟨rfl, ?_, ?_, ?_⟩
  · have hq : i16ToFloat a * 32767 = ((a : ℚ) * 32767) / 32768 := by
      unfold i16ToFloat
      ring
    have htb : a - 1 ≤ truncRat (i16ToFloat a * 32767) ∧
        truncRat (i16ToFloat a * 32767) ≤ a + 1 := by
      rcases le_or_lt 0 a with hs | hs
      · have h0 : (0 : ℚ) ≤ (a : ℚ) := by exact_mod_cast hs
        have h2 : ((a : ℚ) * 32767) / 32768 ≤ (a : ℚ) := by
          rw [div_le_iff₀ (by norm_num : (0 : ℚ) < 32768)]
          nlinarith
        have hle : (a : ℚ) ≤ 32767 := by exact_mod_cast ha2
        have h1 : (a : ℚ) - 1 ≤ ((a : ℚ) * 32767) / 32768 := by
          rw [le_div_iff₀ (by norm_num : (0 : ℚ) < 32768)]
          nlinarith
        obtain ⟨u1, u2⟩ := truncRat_between_of_nonneg a (i16ToFloat a * 32767) hs
          (by rw [hq]; exact h1) (by rw [hq]; exact h2)
        exact ⟨by omega, by omega⟩
      · have hs0 : a ≤ 0 := le_of_lt hs
        have h0 : (a : ℚ) ≤ 0 := by exact_mod_cast hs0
        have hge : (-32768 : ℚ) ≤ (a : ℚ) := by exact_mod_cast ha1
        have h1 : (a : ℚ) ≤ ((a : ℚ) * 32767) / 32768 := by
          rw [le_div_iff₀ (by norm_num : (0 : ℚ) < 32768)]
          nlinarith
        have h2 : ((a : ℚ) * 32767) / 32768 ≤ (a : ℚ) + 1 := by
          rw [div_le_iff₀ (by norm_num : (0 : ℚ) < 32768)]
          nlinarith
        obtain ⟨u1, u2⟩ := truncRat_between_of_nonpos a (i16ToFloat a * 32767) hs0
          (by rw [hq]; exact h1) (by rw [hq]; exact h2)
        exact ⟨by omega, by omega⟩
    exact clampAbs (-32768) 32767 (truncRat (i16ToFloat a * 32767)) a ha1 ha2 htb.1 htb.2
  · have hq : (u16ToFloat b + 1) * (65535 / 2 : ℚ) = ((b : ℚ) * 65535) / 65536 := by
      unfold u16ToFloat
      ring
    have h0 : (0 : ℚ) ≤ (b : ℚ) := by exact_mod_cast hb1
    have hle : (b : ℚ) ≤ 65535 := by exact_mod_cast hb2
    have h2 : ((b : ℚ) * 65535) / 65536 ≤ (b : ℚ) := by
      rw [div_le_iff₀ (by norm_num : (0 : ℚ) < 65536)]
      nlinarith
    have h1 : (b : ℚ) - 1 ≤ ((b : ℚ) * 65535) / 65536 := by
      rw [le_div_iff₀ (by norm_num : (0 : ℚ) < 65536)]
      nlinarith
    obtain ⟨u1, u2⟩ := truncRat_between_of_nonneg b ((u16ToFloat b + 1) * (65535 / 2 : ℚ)) hb1
      (by rw [hq]; exact h1) (by rw [hq]; exact h2)
    exact clampAbs 0 65535 (truncRat ((u16ToFloat b + 1) * (65535 / 2 : ℚ))) b hb1 hb2
      (by omega) (by omega)
  · have hq : (u8ToFloat c + 1) * (255 / 2 : ℚ) = ((c : ℚ) * 255) / 256 := by
      unfold u8ToFloat
      ring
    have h0 : (0 : ℚ) ≤ (c : ℚ) := by exact_mod_cast hc1
    have hle : (c : ℚ) ≤ 255 := by exact_mod_cast hc2
    have h2 : ((c : ℚ) * 255) / 256 ≤ (c : ℚ) := by
      rw [div_le_iff₀ (by norm_num : (0 : ℚ) < 256)]
      nlinarith
    have h1 : (c : ℚ) - 1 ≤ ((c : ℚ) * 255) / 256 := by
      rw [le_div_iff₀ (by norm_num : (0 : ℚ) < 256)]
      nlinarith
    obtain ⟨u1, u2⟩ := truncRat_between_of_nonneg c ((u8ToFloat c + 1) * (255 / 2 : ℚ)) hc1
      (by rw [hq]; exact h1) (by rw [hq]; exact h2)
    exact clampAbs 0 255 (truncRat ((u8ToFloat c + 1) * (255 / 2 : ℚ))) c hc1 hc2
      (by omega) (by omega)

theorem claim5_witness :
    ((-32768 ≤ (-32768 : Int) ∧ (-32768 : Int) ≤ 32767) ∧
      (0 ≤ (65535 : Int) ∧ (65535 : Int) ≤ 65535) ∧
      (0 ≤ (255 : Int) ∧ (255 : Int) ≤ 255)) ∧
    (floatToF32 (f32Passthrough (1/2)) = (1/2 : ℚ) ∧
      |floatToI16 (i16ToFloat (-32768)) - (-32768)| ≤ 1 ∧
      |floatToU16 (u16ToFloat 65535) - 65535| ≤ 1 ∧
      |floatToU8 (u8ToFloat 255) - 255| ≤ 1) :=
  ⟨⟨⟨by decide, by decide⟩, ⟨by decide, by decide⟩, ⟨by decide, by decide⟩⟩,
    claim5_roundtrip (1/2) (-32768) 65535 255 (by decide) (by decide) (by decide)
      (by decide) (by decide) (by decide)⟩

/-- The pipeline state relevant to loopback playback.
`capturedPlaybackFlag` is the boolean moved into the capture closure when
the input stream was built (`let playback_enabled = self.playback_enabled`,
src/audio.rs:330); `none` means no capture stream is running. -/
structure AudioCaptureState where
  playbackEnabled : Bool
  capturedPlaybackFlag : Option Bool
  channels : Nat
  buffer : List ℚ
  playbackBuffer : List ℚ
  sentChunks : List (List ℚ)
deriving DecidableEq

/-- `AudioCapture::new` (src/audio.rs:23-60): playback disabled, mono,
empty buffers, no stream. -/
def newAudioCapture : AudioCaptureState :=
  { playbackEnabled := false, capturedPlaybackFlag := none, channels := 1,
    buffer := [], playbackBuffer := [], sentChunks := [] }

/-- `start_capture` (src/audio.rs:223-420): builds the input stream whose
callback closure captures the current value of `self.playback_enabled` by
value (src/audio.rs:330). -/
def startCapture (s : AudioCaptureState) : AudioCaptureState :=
  { s with capturedPlaybackFlag := some s.playbackEnabled }

/-- `set_playback_enabled` (src/audio.rs:669-684): updates the field and
rebuilds or drops the output stream, but cannot reach the flag already
captured inside the running capture closure. -/
def setPlaybackEnabled (s : AudioCaptureState) (enabled : Bool) : AudioCaptureState :=
  { s with playbackEnabled := enabled }

/-- One capture-callback firing (src/audio.rs:346-402): runs
`process_audio_data` with the closure's captured flag, not the field's
current value. -/
def captureCallback (s : AudioCaptureState) (input : List ℚ) : AudioCaptureState :=
  match s.capturedPlaybackFlag with
  | none => s
  | some flag =>
    let r := processAudioData input s.buffer s.channels flag s.playbackBuffer
    { s with
      buffer := r.buffer
      playbackBuffer := r.playbackBuffer
      sentChunks := s.sentChunks ++ r.sentChunks }

/-- C4 fails on the code: the capture closure snapshots `playback_enabled`
at `start_capture` time, so after starting with playback disabled and then
calling `set_playback_enabled(true)`, a callback appends nothing to the
playback buffer even though playback is enabled — while a pipeline enabled
before `start_capture` does append its samples.  The output stream built by
`set_playback_enabled(true)` is therefore never fed. -/
theorem claim4_staleFlag :
    (setPlaybackEnabled (startCapture newAudioCapture) true).playbackEnabled = true ∧
    (captureCallback (setPlaybackEnabled (startCapture newAudioCapture) true)
      [1]).playbackBuffer = [] ∧
    (captureCallback (startCapture (setPlaybackEnabled newAudioCapture true))
      [1]).playbackBuffer = [1] := by
  decide

/-- `load_model`, demo build (src/transcriber.rs:34-63): a missing model
file only logs a warning ("但仍然继续（模拟）") and the function returns Ok
unconditionally; the path merely selects a simulated loading delay. -/
def loadModelDemo (_pathExists : Bool) (_modelPath : String) : Except String Unit :=
  Except.ok ()

/-- `load_model`, real_whisper build (src/transcriber.rs:65-87): a missing
path fails immediately; otherwise the engine either succeeds or reports a
load failure (the engine outcome abstracted as a boolean). -/
def loadModelReal (pathExists : Bool) (engineLoadOk : Bool) (modelPath : String) :
    Except String Unit :=
  if !pathExists then Except.error ("模型文件不存在: " ++ modelPath)
  else if engineLoadOk then Except.ok () else Except.error "加载模型失败"

/-- C6 fails on the code as stated for every build: in the demo
(non-real_whisper) build, `load_model` on a nonexistent path returns
success, not a failure result. -/
theorem claim6_counterexample :
    loadModelDemo false "/nonexistent/model.bin" = Except.ok () := by
  rfl

/-- C6 amended: in the real_whisper build, `load_model` fails on a path
that does not exist (for every engine outcome); the demo build returns
success regardless of path existence. -/
theorem claim6_amended (engineLoadOk : Bool) (modelPath : String) :
    loadModelReal false engineLoadOk modelPath =
      Except.error ("模型文件不存在: " ++ modelPath) ∧
    loadModelDemo false modelPath = Except.ok () :=
  ⟨rfl, rfl⟩

/-- From `start_processing`, real_whisper build (src/transcriber.rs:316):
`buffer_duration = audio_buffer.len() as f32 / 16000.0`. -/
def bufferDuration (buf : List ℚ) : ℚ := (buf.length : ℚ) / 16000

/-- The dual-threshold inference trigger (src/transcriber.rs:319):
`buffer_duration >= 2.0 || (buffer_duration >= 1.0 && elapsed >= 0.5)`. -/
def shouldTrigger (buf : List ℚ) (elapsed : ℚ) : Bool :=
  decide (2 ≤ bufferDuration buf) ||
    (decide (1 ≤ bufferDuration buf) && decide (1/2 ≤ elapsed))

/-- Result of one received-chunk iteration of the worker loop. -/
structure WorkerStepResult where
  buffer : List ℚ
  inferenceAttempted : Bool
  timerReset : Bool
deriving DecidableEq

/-- One iteration of the real_whisper worker loop after receiving a chunk
(src/transcriber.rs:311-371): append the chunk to the rolling buffer; check
the dual threshold, then `!audio_buffer.is_empty() && reusable_state.is_some()`;
`try_lock` the engine context and `continue` (skip the cycle) when
contended; otherwise run the pass: on success retain the trailing
`(0.5 * 16000) = 8000` samples when more are present and clear otherwise,
on failure clear the buffer; both outcomes reset `last_process_time`. -/
def workerReceiveStep (buffer chunk : List ℚ) (elapsed : ℚ)
    (stateOk lockOk passSuccess : Bool) : WorkerStepResult :=
  let buf := buffer ++ chunk
  if shouldTrigger buf elapsed then
    if !buf.isEmpty && stateOk then
      if lockOk then
        if passSuccess then
          if 8000 < buf.length then
            ⟨buf.drop (buf.length - 8000), true, true⟩
          else
            ⟨[], true, true⟩
        else
          ⟨[], true, true⟩
      else
        ⟨buf, false, false⟩
    else
      ⟨buf, false, false⟩
  else
    ⟨buf, false, false⟩

theorem isEmpty_eq_false_of_length_pos (l : List ℚ) (h : 0 < l.length) :
    l.isEmpty = false := by
  cases l
  · simp at h
  · rfl

theorem shouldTrigger_length (buf : List ℚ) (e : ℚ)
    (h : shouldTrigger buf e = true) : 16000 ≤ buf.length := by
  have hdur : 1 ≤ bufferDuration buf := by
    simp only [shouldTrigger, Bool.or_eq_true, Bool.and_eq_true, decide_eq_true_eq] at h
    rcases h with h | h
    · linarith
    · exact h.1
  unfold bufferDuration at hdur
  rw [le_div_iff₀ (by norm_num : (0 : ℚ) < 16000)] at hdur
  have hcast : (16000 : ℚ) ≤ (buf.length : ℚ) := by linarith
  exact_mod_cast hcast

theorem workerReceiveStep_attempted (buffer chunk : List ℚ) (elapsed : ℚ)
    (lockOk passSuccess : Bool)
    (ht : shouldTrigger (buffer ++ chunk) elapsed = true) :
    (workerReceiveStep buffer chunk elapsed true lockOk passSuccess).inferenceAttempted
      = lockOk := by
  have hne : (buffer ++ chunk).isEmpty = false :=
    isEmpty_eq_false_of_length_pos _ (by have := shouldTrigger_length _ _ ht; omega)
  cases lockOk with
  | false => simp [workerReceiveStep, ht, hne]
  | true =>
    cases passSuccess with
    | false => simp [workerReceiveStep, ht, hne]
    | true =>
      by_cases h8 : 8000 < (buffer ++ chunk).length <;>
        rw [List.length_append] at h8 <;>
        simp [workerReceiveStep, ht, hne, h8]

/-- C7: with the reusable engine state available, an inference pass is
attempted after receiving a chunk exactly when the context lock is free and
the dual threshold holds — accumulated duration (samples/16000) at least
2.0, or at least 1.0 together with at least 0.5 s since the last pass; when
the lock is contended the cycle is skipped: no pass, buffer left unchanged
(the chunk stays appended, nothing drained), timer not reset. -/
theorem claim7_trigger (buffer chunk : List ℚ) (elapsed : ℚ)
    (lockOk passSuccess : Bool) :
    ((workerReceiveStep buffer chunk elapsed true lockOk passSuccess).inferenceAttempted =
      (lockOk && shouldTrigger (buffer ++ chunk) elapsed)) ∧
    (shouldTrigger (buffer ++ chunk) elapsed = true ↔
      (2 ≤ bufferDuration (buffer ++ chunk) ∨
        (1 ≤ bufferDuration (buffer ++ chunk) ∧ 1/2 ≤ elapsed))) ∧
    (lockOk = false →
      (workerReceiveStep buffer chunk elapsed true lockOk passSuccess).buffer =
        buffer ++ chunk ∧
      (workerReceiveStep buffer chunk elapsed true lockOk passSuccess).inferenceAttempted
        = false ∧
      (workerReceiveStep buffer chunk elapsed true lockOk passSuccess).timerReset = false) := by
  have hiff : shouldTrigger (buffer ++ chunk) elapsed = true ↔
      (2 ≤ bufferDuration (buffer ++ chunk) ∨
        (1 ≤ bufferDuration (buffer ++ chunk) ∧ 1/2 ≤ elapsed)) := by
    simp [shouldTrigger, Bool.or_eq_true, Bool.and_eq_true, decide_eq_true_eq]
  by_cases ht : shouldTrigger (buffer ++ chunk) elapsed
  · have hne : (buffer ++ chunk).isEmpty = false :=
      isEmpty_eq_false_of_length_pos _ (by have := shouldTrigger_length _ _ ht; omega)
    refine ⟨?_, hiff, fun hl => ?_⟩
    · rw [workerReceiveStep_attempted buffer chunk elapsed lockOk passSuccess ht, ht,
        Bool.and_true]
    · subst hl
      refine ⟨?_, ?_, ?_⟩ <;> simp [workerReceiveStep, ht, hne]
  · have htf : shouldTrigger (buffer ++ chunk) elapsed = false := by
      simpa using ht
    refine ⟨?_, hiff, fun _ => ⟨?_, ?_, ?_⟩⟩ <;>
      simp [workerReceiveStep, htf]

theorem claim7_witness :
    (false = false) ∧
    ((workerReceiveStep [] [] 0 true false false).buffer = [] ++ [] ∧
      (workerReceiveStep [] [] 0 true false false).inferenceAttempted = false ∧
      (workerReceiveStep [] [] 0 true false false).timerReset = false) :=
  ⟨rfl, (claim7_trigger [] [] 0 false false).2.2 rfl⟩

/-- C8: whenever a pass actually runs (which requires the dual threshold,
hence at least 16000 buffered samples), a successful pass leaves exactly
the trailing `min(n, 8000)` samples of the pre-pass buffer (necessarily
8000, since n ≥ 16000 at every reachable pass), in order; a failed pass
leaves the buffer empty; in both cases the time-since-last-inference
marker is reset. -/
theorem claim8_retention (buffer chunk : List ℚ) (elapsed : ℚ)
    (lockOk passSuccess : Bool)
    (h : (workerReceiveStep buffer chunk elapsed true lockOk passSuccess).inferenceAttempted
      = true) :
    16000 ≤ (buffer ++ chunk).length ∧
    (passSuccess = true →
      (workerReceiveStep buffer chunk elapsed true lockOk passSuccess).buffer =
        (buffer ++ chunk).drop
          ((buffer ++ chunk).length - min (buffer ++ chunk).length 8000) ∧
      (workerReceiveStep buffer chunk elapsed true lockOk passSuccess).buffer.length =
        min (buffer ++ chunk).length 8000) ∧
    (passSuccess = false →
      (workerReceiveStep buffer chunk elapsed true lockOk passSuccess).buffer = []) ∧
    (workerReceiveStep buffer chunk elapsed true lockOk passSuccess).timerReset = true := by
  by_cases ht : shouldTrigger (buffer ++ chunk) elapsed
  · have hlen := shouldTrigger_length _ _ ht
    have hne : (buffer ++ chunk).isEmpty = false :=
      isEmpty_eq_false_of_length_pos _ (by omega)
    cases lockOk with
    | false => simp [workerReceiveStep, ht, hne] at h
    | true =>
      have hmin : min (buffer ++ chunk).length 8000 = 8000 := min_eq_right (by omega)
      have h8 : 8000 < buffer.length + chunk.length := by
        rw [← List.length_append]
        omega
      cases passSuccess with
      | true =>
        have hres : workerReceiveStep buffer chunk elapsed true true true =
            ⟨(buffer ++ chunk).drop ((buffer ++ chunk).length - 8000), true, true⟩ := by
          simp [workerReceiveStep, ht, hne, h8]
        refine ⟨hlen, fun _ => ?_, fun hcon => by simp at hcon, by rw [hres]⟩
        rw [hmin, hres]
        constructor
        · simp
        · rw [List.length_drop]
          omega
      | false =>
        have hres : workerReceiveStep buffer chunk elapsed true true false =
            ⟨[], true, true⟩ := by
          simp [workerReceiveStep, ht, hne]
        refine ⟨hlen, fun hcon => by simp at hcon, fun _ => by rw [hres], by rw [hres]⟩
  · simp [workerReceiveStep, ht] at h

theorem claim8_witness :
    ((workerReceiveStep (List.replicate 16000 (0 : ℚ)) [] 1 true true true).inferenceAttempted
      = true) ∧
    (16000 ≤ (List.replicate 16000 (0 : ℚ) ++ []).length ∧
     (true = true →
       (workerReceiveStep (List.replicate 16000 (0 : ℚ)) [] 1 true true true).buffer =
         (List.replicate 16000 (0 : ℚ) ++ []).drop
           ((List.replicate 16000 (0 : ℚ) ++ []).length -
             min (List.replicate 16000 (0 : ℚ) ++ []).length 8000) ∧
       (workerReceiveStep (List.replicate 16000 (0 : ℚ)) [] 1 true true true).buffer.length =
         min (List.replicate 16000 (0 : ℚ) ++ []).length 8000) ∧
     (true = false →
       (workerReceiveStep (List.replicate 16000 (0 : ℚ)) [] 1 true true true).buffer = []) ∧
     (workerReceiveStep (List.replicate 16000 (0 : ℚ)) [] 1 true true true).timerReset
       = true) := by
  have ht : shouldTrigger (List.replicate 16000 (0 : ℚ) ++ []) 1 = true := by
    simp only [shouldTrigger, bufferDuration, List.append_nil, List.length_replicate,
      Bool.or_eq_true, Bool.and_eq_true, decide_eq_true_eq]
    norm_num
  have hstep := workerReceiveStep_attempted (List.replicate 16000 (0 : ℚ)) [] 1 true true ht
  exact ⟨hstep, claim8_retention (List.replicate 16000 (0 : ℚ)) [] 1 true true hstep⟩

/-- Initial prompt of the demo worker (src/transcriber.rs:188-189), sent
before the receive loop is entered. -/
def demoInitialMessage (modelName : String) : String :=
  "【提示】当前使用模拟转写功能，使用模型: " ++ modelName ++
    "。若需要真实语音识别，请使用real_whisper特性重新编译。"

/-- The demo worker's receive loop (src/transcriber.rs:191-228): one canned
response per received chunk, advancing cyclically through the response list
selected for the model (the list's contents do not matter here). -/
def demoLoop (responses : List String) : Nat → List (List ℚ) → List String
  | _, [] => []
  | idx, _ :: rest =>
    responses.getD idx "" :: demoLoop responses ((idx + 1) % responses.length) rest

/-- Full outbound text trace of the demo worker
(src/transcriber.rs:89-236): the initial prompt, then the loop outputs. -/
def demoWorkerOutputs (modelName : String) (responses : List String)
    (chunks : List (List ℚ)) : List String :=
  demoInitialMessage modelName :: demoLoop responses 0 chunks

/-- Initial prompt of the real_whisper worker (src/transcriber.rs:269-271),
sent before the receive loop is entered. -/
def realInitialMessage (modelName : String) : String :=
  "【提示】正在使用真实转写功能，使用模型: " ++ modelName ++ "。"

/-- Environment of one received chunk in the real_whisper worker loop: the
chunk, the elapsed time since the last pass at the threshold check, lock
availability, the engine outcome, and the segments the engine returns. -/
structure RealEvent where
  chunk : List ℚ
  elapsed : ℚ
  lockOk : Bool
  passSuccess : Bool
  segments : List String

/-- The real_whisper worker's receive loop (src/transcriber.rs:309-383):
per received chunk one `workerReceiveStep`; when a pass ran successfully,
the engine's segments are trimmed and the non-empty ones sent in order. -/
def realLoop (stateOk : Bool) : List ℚ → List RealEvent → List String
  | _, [] => []
  | buf, e :: rest =>
    let r := workerReceiveStep buf e.chunk e.elapsed stateOk e.lockOk e.passSuccess
    let out := if r.inferenceAttempted && e.passSuccess then
        (e.segments.map String.trim).filter (fun s => !s.isEmpty)
      else []
    out ++ realLoop stateOk r.buffer rest

/-- Full outbound text trace of the real_whisper worker
(src/transcriber.rs:238-391): the initial prompt, then the loop outputs. -/
def realWorkerOutputs (modelName : String) (stateOk : Bool)
    (events : List RealEvent) : List String :=
  realInitialMessage modelName :: realLoop stateOk [] events

/-- C10: in both builds the spawned worker sends exactly one informational
prompt before receiving or processing any audio: the first outbound
message is the initial prompt, and with no chunks ever received the trace
is exactly that one message — a transcript segment corresponding to no
captured audio. -/
theorem claim10_initialPrompt (modelName : String) (responses : List String)
    (chunks : List (List ℚ)) (stateOk : Bool) (events : List RealEvent) :
    (demoWorkerOutputs modelName responses chunks).head? =
      some (demoInitialMessage modelName) ∧
    demoWorkerOutputs modelName responses [] = [demoInitialMessage modelName] ∧
    (realWorkerOutputs modelName stateOk events).head? =
      some (realInitialMessage modelName) ∧
    realWorkerOutputs modelName stateOk [] = [realInitialMessage modelName] :=
  ⟨rfl, rfl, rfl, rfl⟩

end Autotalk
